import Mathlib

/-!
# Verification of the WTM backend matching core

Shallow embedding of `backend/src/app/core/food_info.py`, the menu-OCR
matching pipeline: line parsing (`parse_food_items_from_text`), the
semantic catalog search (`find_similar_food_by_meaning`) and the
orchestration (`process_ocr_text_and_get_food_details_nlp`), together with
the `Food` catalog row from `backend/src/app/db/models/food.py`.

Python strings are modelled as lists of characters (`Str`); Python floats
as rationals (`ℚ`); `None` as `Option.none`.  The external collaborators
(the sentence-transformer model and the PostgreSQL/pgvector store) enter
as explicit parameters.
-/

/-- A Python `str`, modelled as its list of characters. -/
abbrev Str := List Char

/-- Whitespace as stripped by Python's `str.strip()` (the ASCII whitespace
characters; the rarely-seen extra Unicode space code points are not
modelled). -/
def isWs (c : Char) : Bool :=
  c = ' ' || c = '\t' || c = '\n' || c = '\r' || c = '\x0b' || c = '\x0c'

/-- Remove leading whitespace (left half of `str.strip()`). -/
def ltrim (s : Str) : Str := s.dropWhile isWs

/-- Remove trailing whitespace (right half of `str.strip()`). -/
def rtrim (s : Str) : Str := (s.reverse.dropWhile isWs).reverse

/-- Python `s.strip()`. -/
def strip (s : Str) : Str := rtrim (ltrim s)

/-- Python `s.split(sep)` for a one-character separator: splits on every
occurrence, keeping empty pieces (`"".split('\n') == [""]`). -/
def splitOnChar (sep : Char) : Str → List Str
  | [] => [[]]
  | c :: rest =>
    if c = sep then [] :: splitOnChar sep rest
    else
      match splitOnChar sep rest with
      | [] => [[c]]
      | t :: ts => (c :: t) :: ts

/-- The separator class `[:—-]` of the pattern
`^(.*?)\s*[:—-]\s*(.*?)\s*$` at `food_info.py:60`: a colon, an em dash or
a hyphen. -/
def isSep (c : Char) : Bool :=
  c = ':' || c = '—' || c = '-'

/-- Split a line at its first separator character: `some (before, after)`
when a separator occurs, `none` otherwise.  This captures the semantics of
matching `^(.*?)\s*[:—-]\s*(.*?)\s*$` against a line without newlines: the
lazy first group makes the regex bind to the earliest separator, group 1 is
the text before it and group 2 the text after it, both of which
`food_info.py:70-71` then strips (the `\s*` paddings only discard
whitespace that `.strip()` removes again). -/
def splitFirstSep : Str → Option (Str × Str)
  | [] => none
  | c :: rest =>
    if isSep c then some ([], rest)
    else (splitFirstSep rest).map (fun p => (c :: p.1, p.2))

/-- One parsed menu line: the dict `{"name": ..., "price_text": ...}`
built by `parse_food_items_from_text` (`food_info.py:79-82`). -/
structure ParsedItem where
  name : Str
  price_text : Option Str
deriving DecidableEq, Repr

/-- The per-line body of the loop at `food_info.py:62-82`: strip the line,
skip it when empty, try the separator pattern; on a match the stripped
group 1 becomes `name` and the stripped group 2 becomes `price_text`,
otherwise the whole stripped line becomes `name` with no price.  The final
`if item.get("name")` guard drops an item whose name is the empty
string. -/
def parseLine (l : Str) : Option ParsedItem :=
  let line := strip l
  if line = [] then none
  else
    match splitFirstSep line with
    | some (before, after) =>
      let name := strip before
      if name = [] then none
      else some { name := name, price_text := some (strip after) }
    | none => some { name := line, price_text := none }

/-- `parse_food_items_from_text` (`food_info.py:53-84`): strip the whole
OCR text, split it on newlines, and collect the parsed item of every line
that yields one. -/
def parse_food_items_from_text (ocr_text : Str) : List ParsedItem :=
  (splitOnChar '\n' (strip ocr_text)).filterMap parseLine

/-- Whether a raw input line contributes a parsed item: its stripped text
must be non-empty (`food_info.py:64`), and when the separator pattern
matches, the stripped text before the first separator must be non-empty —
the `if item.get("name")` guard at `food_info.py:78`. -/
def line_kept (l : Str) : Bool :=
  decide (strip l ≠ []) &&
    (match splitFirstSep (strip l) with
     | some (b, _) => decide (strip b ≠ [])
     | none => true)

example :
    parse_food_items_from_text "돼지 김치찌개 : 8,000원".data =
      [{ name := "돼지 김치찌개".data, price_text := some "8,000원".data }] := by
  decide

example :
    parse_food_items_from_text "소고기 스테이크".data =
      [{ name := "소고기 스테이크".data, price_text := none }] := by
  decide

example : parse_food_items_from_text "- 100".data = [] := by decide

example :
    parse_food_items_from_text "a - 1\n\n  b : 2  ".data =
      [{ name := "a".data, price_text := some "1".data },
       { name := "b".data, price_text := some "2".data }] := by
  decide

/-! ## The catalog: `Food` rows and the vector search -/

/-- A row of the `foods` table (`backend/src/app/db/models/food.py`).
Nullable columns are `Option`s; the `embedding` pgvector column is
nullable (`nullable=True`), floats are modelled as `ℚ`. -/
structure Food where
  id : ℕ
  menu_id : ℕ
  name : Str
  description : Option Str
  image_url : Option Str
  ingredients : Option Str
  embedding : Option (List ℚ)
  calories : Option ℚ
  protein : Option ℚ
  carbs : Option ℚ
  fat : Option ℚ
  allergens : Option Str
  translated_name : Option Str
  translated_description : Option Str
deriving DecidableEq, Repr

/-- Build a catalog row carrying only the fields the search touches. -/
def mkFood (i : ℕ) (n : Str) (e : Option (List ℚ)) : Food :=
  { id := i, menu_id := 0, name := n, description := none, image_url := none,
    ingredients := none, embedding := e, calories := none, protein := none,
    carbs := none, fat := none, allergens := none, translated_name := none,
    translated_description := none }

/-- `SIMILARITY_THRESHOLD = 0.7` (`food_info.py:19`). -/
def SIMILARITY_THRESHOLD : ℚ := 7/10

/-- `TOP_K_RESULTS = 3` (`food_info.py:21`). -/
def TOP_K_RESULTS : ℕ := 3

/-- `EMBEDDING_DIM = 768` (`models/food.py:4`). -/
def EMBEDDING_DIM : ℕ := 768

/-- Dot product of two vectors (componentwise product, summed). -/
def dotQ (u v : List ℚ) : ℚ := (List.zipWith (· * ·) u v).sum

/-- Modelled from the spec: the backing store's cosine-distance operator
`<=>` (PostgreSQL + pgvector), which is not part of this repository —
`food_info.py:139` only invokes it through
`Food.embedding.cosine_distance(vector_str)`.  The spec defines cosine
similarity as the dot product divided by the product of the magnitudes,
range `[-1, 1]`, "degenerate to 0 for a zero vector", and cosine distance
as `1 - similarity`.  Exact magnitudes require square roots, so over `ℚ`
we model the operator by `1 - dot q e`, which is the exact cosine distance
whenever both vectors have magnitude 1; a zero query vector has dot
product 0 with every row, so its modelled similarity degenerates to 0
exactly as the spec states.  A row whose `embedding` column is NULL gets a
NULL distance, which every SQL comparison rejects, so such rows are
excluded — represented here by returning `none`. -/
def cosine_distance (q : List ℚ) (f : Food) : Option ℚ :=
  f.embedding.map (fun e => 1 - dotQ q e)

/-- The rows of the `SELECT` at `food_info.py:137-148`, before `ORDER BY`
and `LIMIT`: each catalog row is paired with its distance to the query
(`dist`, the per-row result of the `<=>` operator), and kept exactly when
that distance is strictly below `distance_limit = 1 - threshold`
(`food_info.py:133,142`); rows with a NULL distance are dropped by the
SQL comparison. -/
def filteredRows (rows : List Food) (dist : Food → Option ℚ)
    (distance_limit : ℚ) : List (Food × ℚ) :=
  rows.filterMap (fun f =>
    (dist f).bind (fun d => if d < distance_limit then some (f, d) else none))

/-- The result relation of the vector search at `food_info.py:137-154`:
`out` is a possible value of the converted result list.  The query orders
the filtered rows by distance ascending (`ORDER BY`, `food_info.py:143-145`)
— with no secondary sort key, so any distance-sorted permutation of the
filtered rows is a legal ordering — takes the first `top_k`
(`LIMIT`, `food_info.py:146`), and the loop at `food_info.py:152-154`
converts each `(food, distance)` row to `(food, 1 - distance)`. -/
def IsSearchResult (rows : List Food) (dist : Food → Option ℚ)
    (distance_limit : ℚ) (top_k : ℕ) (out : List (Food × ℚ)) : Prop :=
  ∃ ds : List (Food × ℚ),
    ds.Perm (filteredRows rows dist distance_limit) ∧
    ds.Pairwise (fun a b => a.2 ≤ b.2) ∧
    out = (ds.take top_k).map (fun p => (p.1, 1 - p.2))

/-- `find_similar_food_by_meaning` (`food_info.py:87-167`) as an
input/output relation.  The external state enters as parameters:
`model_loaded` is whether `embedding_model`/`EMBEDDING_DIM` loaded at
startup (`food_info.py:26-36`), `get_embedding` is the model's
text-to-vector map (`none` when encoding raises, `food_info.py:44-50`),
and `db` is the catalog — `none` meaning the query raises, which the
`except` block at `food_info.py:162-167` catches, returning `[]`.
The guard at `food_info.py:109-111` and the failed-embedding guard at
`food_info.py:120-122` also return `[]`. -/
def find_similar_food_by_meaning (model_loaded : Bool)
    (get_embedding : Str → Option (List ℚ)) (db : Option (List Food))
    (parsed_name : Str) (top_k : ℕ) (threshold : ℚ)
    (out : List (Food × ℚ)) : Prop :=
  match model_loaded with
  | false => out = []
  | true =>
    match get_embedding parsed_name with
    | none => out = []
    | some input_vector =>
      match db with
      | none => out = []
      | some rows =>
        IsSearchResult rows (cosine_distance input_vector) (1 - threshold)
          top_k out

/-- One element of the list built by
`process_ocr_text_and_get_food_details_nlp` (`food_info.py:194-202`). -/
structure ResultItem where
  parsed_name : Str
  price_text : Option Str
  similar_foods : List (Food × ℚ)

/-- `process_ocr_text_and_get_food_details_nlp` (`food_info.py:171-205`)
as an input/output relation: parse the OCR text, and for each parsed item
in order emit one result dict whose `parsed_name`/`price_text` copy the
item and whose `similar_foods` is a result of
`find_similar_food_by_meaning` called with the default `top_k` and
`threshold` (`food_info.py:192`). -/
def process_ocr_text_and_get_food_details_nlp (model_loaded : Bool)
    (get_embedding : Str → Option (List ℚ)) (db : Option (List Food))
    (ocr_text : Str) (out : List ResultItem) : Prop :=
  List.Forall₂
    (fun item r =>
      r.parsed_name = item.name ∧ r.price_text = item.price_text ∧
      find_similar_food_by_meaning model_loaded get_embedding db item.name
        TOP_K_RESULTS SIMILARITY_THRESHOLD r.similar_foods)
    (parse_food_items_from_text ocr_text) out

example :
    find_similar_food_by_meaning false (fun _ => some [1]) none "a".data
      3 (7/10) [] := rfl

/-! ## Helper lemmas: generic list facts -/

theorem forall₂_exists_left {α β : Type} {R : α → β → Prop} :
    ∀ {l₁ : List α} {l₂ : List β}, List.Forall₂ R l₁ l₂ →
      ∀ b ∈ l₂, ∃ a ∈ l₁, R a b := by
  intro l₁ l₂ h
  induction h with
  | nil => intro b hb; exact absurd hb (List.not_mem_nil b)
  | @cons a b t₁ t₂ hr ht ih =>
    intro x hx
    rcases List.mem_cons.mp hx with hx | hx
    · exact ⟨a, List.mem_cons_self a t₁, by rw [hx]; exact hr⟩
    · obtain ⟨y, hy, hR⟩ := ih x hx
      exact ⟨y, List.mem_cons_of_mem _ hy, hR⟩

theorem exists_forall₂ {α β : Type} {R : α → β → Prop} :
    ∀ (l : List α), (∀ a ∈ l, ∃ b, R a b) → ∃ l₂, List.Forall₂ R l l₂ := by
  intro l
  induction l with
  | nil => intro _; exact ⟨[], List.Forall₂.nil⟩
  | cons a t ih =>
    intro h
    obtain ⟨b, hb⟩ := h a (List.mem_cons_self a t)
    obtain ⟨l₂, hl⟩ := ih (fun x hx => h x (List.mem_cons_of_mem _ hx))
    exact ⟨b :: l₂, List.Forall₂.cons hb hl⟩

/-! ## Helper lemmas: the search relation -/

theorem exists_isSearchResult (rows : List Food) (dist : Food → Option ℚ)
    (limit : ℚ) (k : ℕ) : ∃ out, IsSearchResult rows dist limit k out := by
  haveI hTot : IsTotal (Food × ℚ) (fun a b => a.2 ≤ b.2) :=
    ⟨fun a b => le_total a.2 b.2⟩
  haveI hTrans : IsTrans (Food × ℚ) (fun a b => a.2 ≤ b.2) :=
    ⟨fun _ _ _ h1 h2 => le_trans h1 h2⟩
  exact ⟨_, List.insertionSort (fun a b => a.2 ≤ b.2)
      (filteredRows rows dist limit),
    List.perm_insertionSort _ _, List.sorted_insertionSort _ _, rfl⟩

theorem isSearchResult_unique (rows : List Food) (dist : Food → Option ℚ)
    (limit : ℚ) (k : ℕ)
    (hd : (filteredRows rows dist limit).Pairwise (fun a b => a.2 ≠ b.2))
    (out₁ out₂ : List (Food × ℚ))
    (h₁ : IsSearchResult rows dist limit k out₁)
    (h₂ : IsSearchResult rows dist limit k out₂) : out₁ = out₂ := by
  obtain ⟨ds₁, hp₁, hs₁, ho₁⟩ := h₁
  obtain ⟨ds₂, hp₂, hs₂, ho₂⟩ := h₂
  have hd₁ : ds₁.Pairwise (fun a b => a.2 ≠ b.2) :=
    (hp₁.pairwise_iff (fun h => Ne.symm h)).mpr hd
  have hd₂ : ds₂.Pairwise (fun a b => a.2 ≠ b.2) :=
    (hp₂.pairwise_iff (fun h => Ne.symm h)).mpr hd
  have hstrict₁ : ds₁.Pairwise (fun a b : Food × ℚ => a.2 < b.2) :=
    (hs₁.and hd₁).imp (fun h => lt_of_le_of_ne h.1 h.2)
  have hstrict₂ : ds₂.Pairwise (fun a b : Food × ℚ => a.2 < b.2) :=
    (hs₂.and hd₂).imp (fun h => lt_of_le_of_ne h.1 h.2)
  haveI : IsAntisymm (Food × ℚ) (fun a b => a.2 < b.2) :=
    ⟨fun _ _ h1 h2 => absurd (lt_trans h1 h2) (lt_irrefl _)⟩
  have hds : ds₁ = ds₂ :=
    List.eq_of_perm_of_sorted (hp₁.trans hp₂.symm) hstrict₁ hstrict₂
  rw [ho₁, ho₂, hds]

theorem exists_find_similar (ml : Bool) (e : Str → Option (List ℚ))
    (db : Option (List Food)) (nm : Str) (k : ℕ) (th : ℚ) :
    ∃ out, find_similar_food_by_meaning ml e db nm k th out := by
  cases ml with
  | false => exact ⟨[], rfl⟩
  | true =>
    cases he : e nm with
    | none =>
      refine ⟨[], ?_⟩
      simp only [find_similar_food_by_meaning, he]
    | some v =>
      cases db with
      | none =>
        refine ⟨[], ?_⟩
        simp only [find_similar_food_by_meaning, he]
      | some rows =>
        obtain ⟨out, h⟩ :=
          exists_isSearchResult rows (cosine_distance v) (1 - th) k
        refine ⟨out, ?_⟩
        simp only [find_similar_food_by_meaning, he]
        exact h

theorem find_similar_model_false (e : Str → Option (List ℚ))
    (db : Option (List Food)) (nm : Str) (k : ℕ) (th : ℚ)
    (out : List (Food × ℚ))
    (h : find_similar_food_by_meaning false e db nm k th out) : out = [] := h

theorem find_similar_embed_none (ml : Bool) (e : Str → Option (List ℚ))
    (db : Option (List Food)) (nm : Str) (k : ℕ) (th : ℚ)
    (out : List (Food × ℚ)) (he : e nm = none)
    (h : find_similar_food_by_meaning ml e db nm k th out) : out = [] := by
  cases ml with
  | false => exact h
  | true =>
    simp only [find_similar_food_by_meaning, he] at h
    exact h

theorem find_similar_db_none (ml : Bool) (e : Str → Option (List ℚ))
    (nm : Str) (k : ℕ) (th : ℚ) (out : List (Food × ℚ))
    (h : find_similar_food_by_meaning ml e none nm k th out) : out = [] := by
  cases ml with
  | false => exact h
  | true =>
    cases he : e nm with
    | none => simp only [find_similar_food_by_meaning, he] at h; exact h
    | some v => simp only [find_similar_food_by_meaning, he] at h; exact h

/-! ## Helper lemmas: trimming -/

theorem ltrim_sublist (s : Str) : List.Sublist (ltrim s) s :=
  List.dropWhile_sublist isWs

theorem rtrim_sublist (s : Str) : List.Sublist (rtrim s) s := by
  have h := (List.dropWhile_sublist (l := s.reverse) isWs).reverse
  simpa [rtrim] using h

theorem strip_sublist (s : Str) : List.Sublist (strip s) s :=
  (rtrim_sublist (ltrim s)).trans (ltrim_sublist s)

theorem ltrim_cons (c : Char) (t : Str) :
    ltrim (c :: t) = if isWs c then ltrim t else c :: t := by
  simp [ltrim, List.dropWhile_cons]

theorem ltrim_cons_of_not_ws (c : Char) (t : Str) (h : isWs c = false) :
    ltrim (c :: t) = c :: t := by
  simp [ltrim_cons, h]

theorem not_ws_of_ltrim_cons (c : Char) (t : Str)
    (h : ltrim (c :: t) = c :: t) : isWs c = false := by
  by_contra hc
  rw [Bool.not_eq_false] at hc
  rw [ltrim_cons, if_pos hc] at h
  have hlen : (ltrim t).length ≤ t.length := (ltrim_sublist t).length_le
  have := congrArg List.length h
  simp at this
  omega

theorem ltrim_idem (s : Str) : ltrim (ltrim s) = ltrim s := by
  induction s with
  | nil => rfl
  | cons c t ih =>
    by_cases h : isWs c
    · rw [ltrim_cons, if_pos h, ih]
    · rw [ltrim_cons, if_neg h, ltrim_cons, if_neg h]

theorem rtrim_eq_reverse (s : Str) : rtrim s = (ltrim s.reverse).reverse := rfl

theorem rtrim_idem (s : Str) : rtrim (rtrim s) = rtrim s := by
  rw [rtrim_eq_reverse, rtrim_eq_reverse, List.reverse_reverse, ltrim_idem]

theorem rtrim_append_eq (s : Str) : ∃ u, rtrim s ++ u = s := by
  obtain ⟨u, hu⟩ := List.dropWhile_suffix (l := s.reverse) isWs
  refine ⟨u.reverse, ?_⟩
  have := congrArg List.reverse hu
  simpa [rtrim, List.reverse_append] using this

theorem ltrim_rtrim (s : Str) (h : ltrim s = s) :
    ltrim (rtrim s) = rtrim s := by
  obtain ⟨u, hu⟩ := rtrim_append_eq s
  cases hr : rtrim s with
  | nil => rfl
  | cons c t =>
    apply ltrim_cons_of_not_ws
    rw [hr] at hu
    rw [← hu] at h
    rw [List.cons_append] at h
    have hc := not_ws_of_ltrim_cons c (t ++ u) h
    exact hc

theorem strip_idem (s : Str) : strip (strip s) = strip s := by
  show rtrim (ltrim (rtrim (ltrim s))) = rtrim (ltrim s)
  rw [ltrim_rtrim (ltrim s) (ltrim_idem s), rtrim_idem]

theorem ltrim_eq_of_strip (s : Str) (h : strip s = s) : ltrim s = s := by
  have h1 : List.Sublist (strip s) (ltrim s) := rtrim_sublist (ltrim s)
  have h2 : List.Sublist (ltrim s) s := ltrim_sublist s
  have hl : s.length ≤ (ltrim s).length := by
    conv_lhs => rw [← h]
    exact h1.length_le
  exact h2.eq_of_length (le_antisymm h2.length_le hl)

theorem rtrim_eq_of_strip (s : Str) (h : strip s = s) : rtrim s = s := by
  have h1 := ltrim_eq_of_strip s h
  rw [strip, h1] at h
  exact h

theorem ltrim_append_of_ne (s t : Str) (h : ltrim s = s) (hne : s ≠ []) :
    ltrim (s ++ t) = s ++ t := by
  cases s with
  | nil => exact absurd rfl hne
  | cons c u =>
    have hc := not_ws_of_ltrim_cons c u h
    rw [List.cons_append]
    exact ltrim_cons_of_not_ws c (u ++ t) hc

/-! ## Helper lemmas: splitting -/

theorem splitOnChar_not_mem (sep : Char) :
    ∀ s : Str, ∀ l ∈ splitOnChar sep s, sep ∉ l := by
  intro s
  induction s with
  | nil =>
    intro l hl
    simp [splitOnChar] at hl
    simp [hl]
  | cons c rest ih =>
    intro l hl
    by_cases h : c = sep
    · rw [splitOnChar, if_pos h] at hl
      rcases List.mem_cons.mp hl with h1 | h1
      · simp [h1]
      · exact ih l h1
    · rw [splitOnChar, if_neg h] at hl
      cases hrec : splitOnChar sep rest with
      | nil =>
        rw [hrec] at hl; simp at hl; subst hl; simp
        exact fun e => h e.symm
      | cons t ts =>
        rw [hrec] at hl
        rcases List.mem_cons.mp hl with h1 | h1
        · subst h1
          have ht : sep ∉ t := ih t (by rw [hrec]; exact List.mem_cons_self t ts)
          simp [h, ht]
          intro he
          exact h he.symm
        · exact ih l (by rw [hrec]; exact List.mem_cons_of_mem t h1)

theorem splitOnChar_of_not_mem (sep : Char) :
    ∀ s : Str, sep ∉ s → splitOnChar sep s = [s] := by
  intro s
  induction s with
  | nil => intro _; rfl
  | cons c rest ih =>
    intro h
    have hc : ¬ c = sep := fun e => h (by simp [e])
    have hr : sep ∉ rest := fun hm => h (List.mem_cons_of_mem _ hm)
    rw [splitOnChar, if_neg hc, ih hr]

theorem splitFirstSep_none :
    ∀ s : Str, splitFirstSep s = none ↔ ∀ c ∈ s, isSep c = false := by
  intro s
  induction s with
  | nil => simp [splitFirstSep]
  | cons c rest ih =>
    by_cases h : isSep c
    · simp [splitFirstSep, h]
    · rw [splitFirstSep, if_neg h, Option.map_eq_none']
      constructor
      · intro hr x hx
        rcases List.mem_cons.mp hx with hx | hx
        · subst hx; exact Bool.not_eq_true _ |>.mp h
        · exact ih.mp hr x hx
      · intro hr
        exact ih.mpr (fun x hx => hr x (List.mem_cons_of_mem _ hx))

theorem splitFirstSep_some :
    ∀ (s b a : Str), splitFirstSep s = some (b, a) →
      (∀ c ∈ b, isSep c = false) ∧ ∃ c, isSep c = true ∧ s = b ++ c :: a := by
  intro s
  induction s with
  | nil => intro b a h; exact Option.noConfusion h
  | cons c rest ih =>
    intro b a h
    by_cases hc : isSep c
    · rw [splitFirstSep, if_pos hc] at h
      have h1 : (([], rest) : Str × Str) = (b, a) := Option.some.inj h
      have hb1 : ([] : Str) = b := congrArg Prod.fst h1
      have hb2 : rest = a := congrArg Prod.snd h1
      subst hb1; subst hb2
      exact ⟨by simp, c, hc, rfl⟩
    · rw [splitFirstSep, if_neg hc] at h
      cases hrec : splitFirstSep rest with
      | none => rw [hrec] at h; simp at h
      | some p =>
        rw [hrec] at h
        obtain ⟨p1, p2⟩ := p
        have h0 : some ((c :: p1, p2) : Str × Str) = some (b, a) := h
        have h1 : ((c :: p1, p2) : Str × Str) = (b, a) := Option.some.inj h0
        have hb1 : c :: p1 = b := congrArg Prod.fst h1
        have hb2 : p2 = a := congrArg Prod.snd h1
        subst hb1; subst hb2
        obtain ⟨hall, d, hd, hs⟩ := ih p1 p2 hrec
        refine ⟨?_, d, hd, by rw [List.cons_append, hs]⟩
        intro x hx
        rcases List.mem_cons.mp hx with hx | hx
        · subst hx; exact Bool.not_eq_true _ |>.mp hc
        · exact hall x hx

theorem splitFirstSep_append (n : Str) (c : Char) (rest : Str)
    (hn : ∀ x ∈ n, isSep x = false) (hc : isSep c = true) :
    splitFirstSep (n ++ c :: rest) = some (n, rest) := by
  induction n with
  | nil => simp [splitFirstSep, hc]
  | cons d u ih =>
    have hd : isSep d = false := hn d (by simp)
    rw [List.cons_append, splitFirstSep,
      if_neg (by simp [hd] : ¬ isSep d = true),
      ih (fun x hx => hn x (by simp [hx]))]
    rfl

/-! ## Helper lemmas: the parser -/

theorem parseLine_strip (l : Str) : parseLine (strip l) = parseLine l := by
  unfold parseLine
  rw [strip_idem]

theorem parse_single_line (l : Str) (h : '\n' ∉ l) :
    parse_food_items_from_text l = (parseLine l).toList := by
  have hs : '\n' ∉ strip l := fun hm => h ((strip_sublist l).subset hm)
  rw [parse_food_items_from_text, splitOnChar_of_not_mem _ _ hs]
  rw [List.filterMap_cons, parseLine_strip l]
  cases parseLine l <;> simp

theorem parseLine_some (l : Str) (item : ParsedItem)
    (h : parseLine l = some item) :
    strip item.name = item.name ∧ item.name ≠ [] ∧
    (∀ c ∈ item.name, isSep c = false) ∧
    (∀ c ∈ item.name, c ∈ l) ∧
    ∀ p, item.price_text = some p → strip p = p ∧ ∀ c ∈ p, c ∈ l := by
  unfold parseLine at h
  by_cases hl : strip l = []
  · simp [hl] at h
  · rw [if_neg hl] at h
    have hmem : ∀ c ∈ strip l, c ∈ l := fun c hc => (strip_sublist l).subset hc
    cases hsp : splitFirstSep (strip l) with
    | some ba =>
      obtain ⟨b, a⟩ := ba
      rw [hsp] at h
      simp only at h
      by_cases hb : strip b = []
      · simp [hb] at h
      · rw [if_neg hb] at h
        injection h with h1
        subst h1
        obtain ⟨hsepb, d, hd, hline⟩ := splitFirstSep_some (strip l) b a hsp
        have hbmem : ∀ c ∈ b, c ∈ l := fun c hc =>
          hmem c (by rw [hline]; exact List.mem_append_left _ hc)
        have hamem : ∀ c ∈ a, c ∈ l := fun c hc =>
          hmem c (by rw [hline]; exact List.mem_append_right _ (List.mem_cons_of_mem _ hc))
        refine ⟨strip_idem b, hb, ?_, ?_, ?_⟩
        · exact fun c hc => hsepb c ((strip_sublist b).subset hc)
        · exact fun c hc => hbmem c ((strip_sublist b).subset hc)
        · intro p hp
          injection hp with hp1
          subst hp1
          exact ⟨strip_idem a, fun c hc => hamem c ((strip_sublist a).subset hc)⟩
    | none =>
      rw [hsp] at h
      simp only at h
      injection h with h1
      subst h1
      refine ⟨strip_idem l, hl, ?_, hmem, ?_⟩
      · exact (splitFirstSep_none (strip l)).mp hsp
      · intro p hp; simp at hp

theorem parseLine_of_split (l b a : Str) (hst : strip l = l)
    (hsp : splitFirstSep l = some (b, a)) (hb : strip b ≠ []) :
    parseLine l = some { name := strip b, price_text := some (strip a) } := by
  have hlne : l ≠ [] := by
    intro he
    rw [he] at hsp
    exact Option.noConfusion hsp
  unfold parseLine
  rw [hst, if_neg hlne, hsp]
  simp only
  rw [if_neg hb]

theorem parseLine_of_nosplit (l : Str) (hst : strip l = l) (hne : l ≠ [])
    (hsp : splitFirstSep l = none) :
    parseLine l = some { name := l, price_text := none } := by
  unfold parseLine
  rw [hst, if_neg hne, hsp]

theorem ltrim_reverse_of_rtrim (p : Str) (h : rtrim p = p) :
    ltrim p.reverse = p.reverse := by
  have := congrArg List.reverse h
  rw [rtrim_eq_reverse, List.reverse_reverse] at this
  exact this

theorem strip_recon_nil (n : Str) (hn : strip n = n) (hne : n ≠ []) :
    strip (n ++ [':', ' ']) = n ++ [':'] := by
  have hln : ltrim n = n := ltrim_eq_of_strip n hn
  have h1 : ltrim (n ++ [':', ' ']) = n ++ [':', ' '] :=
    ltrim_append_of_ne n _ hln hne
  rw [strip, h1, rtrim_eq_reverse]
  have h2 : (n ++ [':', ' ']).reverse = ' ' :: ':' :: n.reverse := by
    simp
  rw [h2, ltrim_cons, if_pos (by decide : isWs ' ' = true),
    ltrim_cons_of_not_ws ':' n.reverse (by decide)]
  simp

theorem strip_recon_cons (n p : Str) (hn : strip n = n) (hne : n ≠ [])
    (hp : strip p = p) (hpne : p ≠ []) :
    strip (n ++ ':' :: ' ' :: p) = n ++ ':' :: ' ' :: p := by
  have hln : ltrim n = n := ltrim_eq_of_strip n hn
  have h1 : ltrim (n ++ ':' :: ' ' :: p) = n ++ ':' :: ' ' :: p :=
    ltrim_append_of_ne n _ hln hne
  rw [strip, h1, rtrim_eq_reverse]
  have hrp : ltrim p.reverse = p.reverse :=
    ltrim_reverse_of_rtrim p (rtrim_eq_of_strip p hp)
  have hrpne : p.reverse ≠ [] := by simpa using hpne
  have h2 : (n ++ ':' :: ' ' :: p).reverse =
      p.reverse ++ (' ' :: ':' :: n.reverse) := by
    simp
  rw [h2, ltrim_append_of_ne p.reverse _ hrp hrpne, ← h2,
    List.reverse_reverse]

theorem strip_space_cons (p : Str) (hp : strip p = p) :
    strip (' ' :: p) = p := by
  rw [strip, ltrim_cons, if_pos (by decide : isWs ' ' = true),
    ltrim_eq_of_strip p hp, rtrim_eq_of_strip p hp]

/-- Re-parsing the reconstruction `name ++ ": " ++ price` of a parser
output gives back the same item. -/
theorem parse_recon (n p : Str) (hn : strip n = n) (hne : n ≠ [])
    (hsep : ∀ c ∈ n, isSep c = false) (hnl : '\n' ∉ n)
    (hp : strip p = p) (hpl : '\n' ∉ p) :
    parse_food_items_from_text (n ++ ':' :: ' ' :: p) =
      [{ name := n, price_text := some p }] := by
  have hnl2 : '\n' ∉ n ++ ':' :: ' ' :: p := by
    intro hm
    rcases List.mem_append.mp hm with hm | hm
    · exact hnl hm
    · rcases List.mem_cons.mp hm with hm | hm
      · exact absurd hm (by decide)
      · rcases List.mem_cons.mp hm with hm | hm
        · exact absurd hm (by decide)
        · exact hpl hm
  rw [parse_single_line _ hnl2]
  by_cases hpe : p = []
  · subst hpe
    have hr : (n ++ ':' :: ' ' :: ([] : Str)) = n ++ [':', ' '] := rfl
    rw [hr, ← parseLine_strip, strip_recon_nil n hn hne]
    have hst : strip (n ++ [':']) = n ++ [':'] := by
      have := strip_idem (n ++ [':', ' '])
      rw [strip_recon_nil n hn hne] at this
      exact this
    have hsp : splitFirstSep (n ++ [':']) = some (n, []) :=
      splitFirstSep_append n ':' [] hsep (by decide)
    rw [parseLine_of_split (n ++ [':']) n [] hst hsp (by rw [hn]; exact hne)]
    rw [hn]
    rfl
  · rw [← parseLine_strip, strip_recon_cons n p hn hne hp hpe]
    have hst : strip (n ++ ':' :: ' ' :: p) = n ++ ':' :: ' ' :: p := by
      have := strip_idem (n ++ ':' :: ' ' :: p)
      rw [strip_recon_cons n p hn hne hp hpe] at this
      exact this
    have hsp : splitFirstSep (n ++ ':' :: ' ' :: p) = some (n, ' ' :: p) :=
      splitFirstSep_append n ':' (' ' :: p) hsep (by decide)
    rw [parseLine_of_split _ n (' ' :: p) hst hsp (by rw [hn]; exact hne)]
    rw [hn, strip_space_cons p hp]
    rfl

theorem mem_parse (t : Str) (item : ParsedItem)
    (h : item ∈ parse_food_items_from_text t) :
    ∃ l, parseLine l = some item ∧ '\n' ∉ l := by
  rw [parse_food_items_from_text] at h
  obtain ⟨l, hl, hp⟩ := List.mem_filterMap.mp h
  exact ⟨l, hp, splitOnChar_not_mem '\n' _ l hl⟩

/-- Invariant of the parser's output (`food_info.py:62-82`): every emitted
item has a stripped, non-empty name containing no separator character and
no newline, and its price text, when present, is stripped and
newline-free. -/
theorem parse_invariant (t : Str) (item : ParsedItem)
    (h : item ∈ parse_food_items_from_text t) :
    strip item.name = item.name ∧ item.name ≠ [] ∧
    (∀ c ∈ item.name, isSep c = false) ∧ '\n' ∉ item.name ∧
    ∀ p, item.price_text = some p → strip p = p ∧ '\n' ∉ p := by
  obtain ⟨l, hp, hnl⟩ := mem_parse t item h
  obtain ⟨h1, h2, h3, h4, h5⟩ := parseLine_some l item hp
  refine ⟨h1, h2, h3, fun hm => hnl (h4 _ hm), ?_⟩
  intro p hps
  obtain ⟨h6, h7⟩ := h5 p hps
  exact ⟨h6, fun hm => hnl (h7 _ hm)⟩

example :
    IsSearchResult [mkFood 1 "a".data (some [1, 0])]
      (cosine_distance [1, 0]) (1 - 7/10) 3
      [(mkFood 1 "a".data (some [1, 0]), 1)] := by
  refine ⟨[(mkFood 1 "a".data (some [1, 0]), 0)], ?_, ?_, ?_⟩
  · have h : filteredRows [mkFood 1 "a".data (some [1, 0])]
        (cosine_distance [1, 0]) (1 - 7/10) =
        [(mkFood 1 "a".data (some [1, 0]), 0)] := by
      norm_num [filteredRows, cosine_distance, dotQ, mkFood,
        List.filterMap_cons, Option.bind]
    rw [h]
  · simp
  · norm_num

theorem length_filterMap_eq_countP {α β : Type} (f : α → Option β) :
    ∀ l : List α, (l.filterMap f).length = l.countP (fun a => (f a).isSome) := by
  intro l
  induction l with
  | nil => rfl
  | cons a t ih =>
    rw [List.filterMap_cons, List.countP_cons]
    cases hf : f a <;> simp [hf, ih]

theorem parseLine_isSome (l : Str) : (parseLine l).isSome = line_kept l := by
  unfold parseLine line_kept
  by_cases hl : strip l = []
  · simp [hl]
  · rw [if_neg hl]
    cases hsp : splitFirstSep (strip l) with
    | some ba =>
      obtain ⟨b, a⟩ := ba
      by_cases hb : strip b = []
      · simp [hb, hl]
      · simp [hb, hl]
    | none => simp [hl]

/-! ## The claims -/

/-- C6 (corrected): the original claim says only lines trimming to empty
are discarded, but a non-empty line whose text before its first separator
is empty (for example `"- 100"`) is also discarded by the
`if item.get("name")` guard; this counterexample exhibits such a line. -/
theorem C6_counterexample :
    parse_food_items_from_text "- 100".data = [] ∧
      strip "- 100".data ≠ [] := by
  constructor
  · decide
  · decide

/-- C6 (amended): the parser produces exactly one ParsedItem per input
line that is kept — stripped text non-empty and, when the separator
pattern matches, a non-empty stripped name part (`line_kept`) — and every
produced ParsedItem has a name that is non-empty after trimming. -/
theorem C6_thm (t : Str) :
    (parse_food_items_from_text t).length =
      (splitOnChar '\n' (strip t)).countP line_kept ∧
    ∀ item ∈ parse_food_items_from_text t,
      strip item.name = item.name ∧ item.name ≠ [] := by
  constructor
  · rw [parse_food_items_from_text, length_filterMap_eq_countP]
    congr 1
    funext l
    rw [parseLine_isSome]
  · intro item hmem
    obtain ⟨h1, h2, _, _, _⟩ := parse_invariant t item hmem
    exact ⟨h1, h2⟩

/-- Witness for C6: evaluating the amended theorem on a concrete input. -/
theorem C6_witness :
    strip "돼지 김치찌개".data = "돼지 김치찌개".data ∧
      "돼지 김치찌개".data ≠ [] :=
  (C6_thm "돼지 김치찌개 : 8,000원".data).2
    ⟨"돼지 김치찌개".data, some "8,000원".data⟩
    (by decide)

/-- C7 (confirmed): a trimmed single line containing a separator, with a
non-empty name part, parses to the stripped text before the first
separator as name and the stripped remainder as price text; a trimmed
non-empty line with no separator parses to the whole line as name with no
price; and the two concrete scenarios from the spec hold. -/
theorem C7_thm :
    (∀ l b a : Str, '\n' ∉ l → strip l = l →
      splitFirstSep l = some (b, a) → strip b ≠ [] →
      parse_food_items_from_text l =
        [{ name := strip b, price_text := some (strip a) }]) ∧
    (∀ l : Str, '\n' ∉ l → strip l = l → l ≠ [] →
      splitFirstSep l = none →
      parse_food_items_from_text l = [{ name := l, price_text := none }]) ∧
    parse_food_items_from_text "돼지 김치찌개 : 8,000원".data =
      [{ name := "돼지 김치찌개".data, price_text := some "8,000원".data }] ∧
    parse_food_items_from_text "소고기 스테이크".data =
      [{ name := "소고기 스테이크".data, price_text := none }] := by
  refine ⟨?_, ?_, by decide, by decide⟩
  · intro l b a hnl hst hsp hb
    rw [parse_single_line l hnl, parseLine_of_split l b a hst hsp hb]
    rfl
  · intro l hnl hst hne hsp
    rw [parse_single_line l hnl, parseLine_of_nosplit l hst hne hsp]
    rfl

/-- Witness for C7: the separator branch of the theorem evaluated on a
concrete line. -/
theorem C7_witness :
    parse_food_items_from_text "a - 1".data =
      [{ name := strip "a ".data, price_text := some (strip " 1".data) }] :=
  C7_thm.1 "a - 1".data "a ".data " 1".data (by decide) (by decide)
    (by decide) (by decide)

/-- C8 (confirmed): re-parsing the reconstruction `name ++ ": " ++ price`
of any parser output with a present price yields the same ParsedItem. -/
theorem C8_thm (t : Str) (item : ParsedItem) (p : Str)
    (hmem : item ∈ parse_food_items_from_text t)
    (hp : item.price_text = some p) :
    parse_food_items_from_text (item.name ++ ':' :: ' ' :: p) = [item] := by
  obtain ⟨h1, h2, h3, h4, h5⟩ := parse_invariant t item hmem
  obtain ⟨h6, h7⟩ := h5 p hp
  rw [parse_recon item.name p h1 h2 h3 h4 h6 h7]
  have : ({ name := item.name, price_text := some p } : ParsedItem) = item := by
    cases item with
    | mk nm pt =>
      simp only at hp ⊢
      rw [hp]
  rw [this]

/-- Witness for C8: the round trip evaluated on a concrete parse. -/
theorem C8_witness :
    parse_food_items_from_text
        (({ name := "a".data, price_text := some "1".data } : ParsedItem).name
          ++ ':' :: ' ' :: "1".data) =
      [{ name := "a".data, price_text := some "1".data }] :=
  C8_thm "a - 1".data { name := "a".data, price_text := some "1".data }
    "1".data (by decide) rfl

/-- C10 (confirmed): a line whose text before the first separator strips
to empty yields no ParsedItem at all — neither a whole-line name nor an
empty-name item. -/
theorem C10_thm (l b a : Str)
    (hsp : splitFirstSep (strip l) = some (b, a)) (hb : strip b = []) :
    parseLine l = none ∧
      ('\n' ∉ l → parse_food_items_from_text l = []) := by
  have hline : strip l ≠ [] := by
    intro he
    rw [he] at hsp
    exact Option.noConfusion hsp
  have hpl : parseLine l = none := by
    unfold parseLine
    rw [if_neg hline, hsp]
    simp only
    rw [if_pos hb]
  refine ⟨hpl, fun hnl => ?_⟩
  rw [parse_single_line l hnl, hpl]
  rfl

/-- Witness for C10: a line consisting of a separator and a price only. -/
theorem C10_witness :
    parseLine ": 100".data = none ∧
      parse_food_items_from_text ": 100".data = [] :=
  have h := C10_thm ": 100".data [] " 100".data (by decide) (by decide)
  ⟨h.1, h.2 (by decide)⟩

theorem dotQ_zero (q : List ℚ) (hq : ∀ x ∈ q, x = 0) :
    ∀ v : List ℚ, dotQ q v = 0 := by
  induction q with
  | nil => intro v; rfl
  | cons x t ih =>
    intro v
    cases v with
    | nil => rfl
    | cons y u =>
      have hx : x = 0 := hq x (by simp)
      have ht : ∀ z ∈ t, z = 0 := fun z hz => hq z (by simp [hz])
      simp [dotQ, hx]
      have := ih ht u
      simpa [dotQ] using this

theorem mem_filteredRows (rows : List Food) (dist : Food → Option ℚ)
    (limit : ℚ) (q : Food × ℚ) (h : q ∈ filteredRows rows dist limit) :
    q.1 ∈ rows ∧ dist q.1 = some q.2 ∧ q.2 < limit := by
  rw [filteredRows] at h
  obtain ⟨f, hf, hsome⟩ := List.mem_filterMap.mp h
  cases hd : dist f with
  | none => rw [hd] at hsome; exact Option.noConfusion hsome
  | some d =>
    rw [hd] at hsome
    have hsome2 : (if d < limit then some (f, d) else none) = some q := hsome
    by_cases hlt : d < limit
    · rw [if_pos hlt] at hsome2
      have hq : (f, d) = q := Option.some.inj hsome2
      rw [← hq]
      exact ⟨hf, hd, hlt⟩
    · rw [if_neg hlt] at hsome2
      exact Option.noConfusion hsome2

theorem isSearchResult_mem (rows : List Food) (dist : Food → Option ℚ)
    (limit : ℚ) (k : ℕ) (out : List (Food × ℚ))
    (h : IsSearchResult rows dist limit k out) :
    ∀ p ∈ out, p.1 ∈ rows ∧ ∃ d, dist p.1 = some d ∧ d < limit ∧
      p.2 = 1 - d := by
  obtain ⟨ds, hperm, hsort, hout⟩ := h
  intro p hp
  rw [hout] at hp
  obtain ⟨q, hq, hpq⟩ := List.mem_map.mp hp
  have hq2 : q ∈ ds := (List.take_sublist _ _).subset hq
  have hq3 : q ∈ filteredRows rows dist limit := hperm.subset hq2
  obtain ⟨h1, h2, h3⟩ := mem_filteredRows rows dist limit q hq3
  rw [← hpq]
  exact ⟨h1, q.2, h2, h3, rfl⟩

/-- C2 (amended): every candidate returned by the catalog search has
similarity strictly greater than the threshold (hence also ≥ threshold);
a candidate whose similarity equals the threshold exactly is excluded,
because the store-side filter compares the cosine distance strictly:
`distance < 1 - threshold` (`food_info.py:131,142`). -/
theorem C2_thm (rows : List Food) (dist : Food → Option ℚ)
    (threshold : ℚ) (top_k : ℕ) (out : List (Food × ℚ))
    (h : IsSearchResult rows dist (1 - threshold) top_k out) :
    ∀ p ∈ out, threshold < p.2 ∧ threshold ≤ p.2 := by
  intro p hp
  obtain ⟨_, d, _, hd2, hd3⟩ := isSearchResult_mem rows dist
    (1 - threshold) top_k out h p hp
  have : threshold < p.2 := by
    rw [hd3]
    linarith
  exact ⟨this, le_of_lt this⟩

/-- C2 counterexample: a catalog row whose modelled cosine similarity to
the query is exactly the threshold 7/10 (distance exactly 3/10) is NOT
included in any valid search result — the only valid result on this
one-row catalog is the empty list. -/
theorem C2_counterexample :
    IsSearchResult [mkFood 1 "A".data (some [7/10, 0])]
      (cosine_distance [1, 0]) (1 - 7/10) 3 [] ∧
    ¬ IsSearchResult [mkFood 1 "A".data (some [7/10, 0])]
      (cosine_distance [1, 0]) (1 - 7/10) 3
      [(mkFood 1 "A".data (some [7/10, 0]), 7/10)] := by
  have hfil : filteredRows [mkFood 1 "A".data (some [7/10, 0])]
      (cosine_distance [1, 0]) (1 - 7/10) = [] := by
    rw [filteredRows]
    norm_num [List.filterMap_cons, cosine_distance, dotQ, mkFood]
  constructor
  · exact ⟨[], by rw [hfil], List.Pairwise.nil, rfl⟩
  · rintro ⟨ds, hperm, hsort, hout⟩
    rw [hfil] at hperm
    rw [hperm.eq_nil] at hout
    exact List.noConfusion hout

/-- Witness for C2: the theorem evaluated on a one-row catalog whose
candidate has similarity 9/10 against threshold 7/10. -/
theorem C2_witness :
    (7 : ℚ)/10 < (mkFood 1 "A".data (some [9/10, 0]), (9 : ℚ)/10).2 ∧
      (7 : ℚ)/10 ≤ (mkFood 1 "A".data (some [9/10, 0]), (9 : ℚ)/10).2 := by
  apply C2_thm [mkFood 1 "A".data (some [9/10, 0])]
    (cosine_distance [1, 0]) (7/10) 3
    [(mkFood 1 "A".data (some [9/10, 0]), (9 : ℚ)/10)] ?_ _ (by simp)
  refine ⟨[(mkFood 1 "A".data (some [9/10, 0]), 1/10)], ?_, ?_, ?_⟩
  · have hfil : filteredRows [mkFood 1 "A".data (some [9/10, 0])]
        (cosine_distance [1, 0]) (1 - 7/10) =
        [(mkFood 1 "A".data (some [9/10, 0]), 1/10)] := by
      rw [filteredRows]
      norm_num [List.filterMap_cons, cosine_distance, dotQ, mkFood]
    rw [hfil]
  · exact List.pairwise_singleton _ _
  · norm_num

/-- C4 (confirmed): the search filters by the threshold first and only
then truncates: the result length equals min top_k (number of rows
passing the threshold filter), hence is at most top_k and no qualifying
candidate is lost while fewer than top_k are returned; the result is
ordered by similarity descending and every entry beats the threshold. -/
theorem C4_thm (rows : List Food) (dist : Food → Option ℚ)
    (threshold : ℚ) (top_k : ℕ) (out : List (Food × ℚ))
    (h : IsSearchResult rows dist (1 - threshold) top_k out) :
    out.length =
      min top_k (filteredRows rows dist (1 - threshold)).length ∧
    out.length ≤ top_k ∧
    out.Pairwise (fun a b => b.2 ≤ a.2) ∧
    ∀ p ∈ out, threshold < p.2 := by
  obtain ⟨ds, hperm, hsort, hout⟩ := h
  have hlen : out.length =
      min top_k (filteredRows rows dist (1 - threshold)).length := by
    rw [hout, List.length_map, List.length_take, hperm.length_eq]
  refine ⟨hlen, ?_, ?_, ?_⟩
  · rw [hlen]; exact min_le_left _ _
  · rw [hout]
    rw [List.pairwise_map]
    have htake : (ds.take top_k).Pairwise (fun a b : Food × ℚ => a.2 ≤ b.2) :=
      hsort.sublist (List.take_sublist _ _)
    exact htake.imp (fun hab => by simp only; linarith)
  · intro p hp
    obtain ⟨_, d, _, hd2, hd3⟩ := isSearchResult_mem rows dist
      (1 - threshold) top_k out ⟨ds, hperm, hsort, hout⟩ p hp
    rw [hd3]
    linarith

/-- Witness for C4: the theorem evaluated on a two-row catalog with one
qualifying candidate and top_k = 3. -/
theorem C4_witness :
    ([(mkFood 1 "A".data (some [4/5, 0]), (4 : ℚ)/5)].length =
      min 3 (filteredRows
        [mkFood 1 "A".data (some [4/5, 0]), mkFood 2 "B".data none]
        (cosine_distance [1, 0]) (1 - 7/10)).length) ∧
    ([(mkFood 1 "A".data (some [4/5, 0]), (4 : ℚ)/5)].length ≤ 3) ∧
    ([(mkFood 1 "A".data (some [4/5, 0]), (4 : ℚ)/5)].Pairwise
      (fun a b => b.2 ≤ a.2)) ∧
    (7 : ℚ)/10 < (mkFood 1 "A".data (some [4/5, 0]), (4 : ℚ)/5).2 := by
  have h := C4_thm
    [mkFood 1 "A".data (some [4/5, 0]), mkFood 2 "B".data none]
    (cosine_distance [1, 0]) (7/10) 3
    [(mkFood 1 "A".data (some [4/5, 0]), (4 : ℚ)/5)] ?_
  · exact ⟨h.1, h.2.1, h.2.2.1, h.2.2.2 _ (by simp)⟩
  refine ⟨[(mkFood 1 "A".data (some [4/5, 0]), 1/5)], ?_, ?_, ?_⟩
  · have hfil : filteredRows
        [mkFood 1 "A".data (some [4/5, 0]), mkFood 2 "B".data none]
        (cosine_distance [1, 0]) (1 - 7/10) =
        [(mkFood 1 "A".data (some [4/5, 0]), 1/5)] := by
      rw [filteredRows]
      norm_num [List.filterMap_cons, cosine_distance, dotQ, mkFood]
    rw [hfil]
  · exact List.pairwise_singleton _ _
  · norm_num

/-- C5 counterexample: the code performs no zero-vector validation.  Here
the zero query vector [0, 0] (produced by the embedding step and handed
to the store) is run through the comparison like any other vector, and at
threshold -1 (a legal parameter of the search) it even returns a
candidate — instead of being rejected before any comparison work as a
Failure. -/
theorem C5_counterexample :
    find_similar_food_by_meaning true (fun _ => some [0, 0])
      (some [mkFood 1 "A".data (some [1, 0])]) "x".data 3 (-1)
      [(mkFood 1 "A".data (some [1, 0]), 0)] := by
  show IsSearchResult [mkFood 1 "A".data (some [1, 0])]
    (cosine_distance [0, 0]) (1 - (-1)) 3
    [(mkFood 1 "A".data (some [1, 0]), 0)]
  refine ⟨[(mkFood 1 "A".data (some [1, 0]), 1)], ?_, ?_, ?_⟩
  · have hfil : filteredRows [mkFood 1 "A".data (some [1, 0])]
        (cosine_distance [0, 0]) (1 - (-1)) =
        [(mkFood 1 "A".data (some [1, 0]), 1)] := by
      rw [filteredRows]
      norm_num [List.filterMap_cons, cosine_distance, dotQ, mkFood]
    rw [hfil]
  · exact List.pairwise_singleton _ _
  · norm_num

/-- C5 (amended): there is no zero-vector rejection; a zero query vector
flows into the backing-store comparison like any other vector.  Under the
spec's degenerate similarity 0 for the zero vector, every row fails the
default threshold 0.7, so the search returns the empty list as a normal
result — not a Failure. -/
theorem C5_thm (q : List ℚ) (hq : ∀ x ∈ q, x = 0)
    (rows : List Food) (out : List (Food × ℚ))
    (h : IsSearchResult rows (cosine_distance q)
      (1 - SIMILARITY_THRESHOLD) TOP_K_RESULTS out) : out = [] := by
  have hfil : filteredRows rows (cosine_distance q)
      (1 - SIMILARITY_THRESHOLD) = [] := by
    rw [filteredRows, List.filterMap_eq_nil_iff]
    intro f _
    cases he : f.embedding with
    | none => simp [cosine_distance, he]
    | some e =>
      have hdot : dotQ q e = 0 := dotQ_zero q hq e
      rw [cosine_distance, he]
      show (if 1 - dotQ q e < 1 - SIMILARITY_THRESHOLD
        then some (f, 1 - dotQ q e) else none) = none
      rw [hdot, if_neg (by norm_num [SIMILARITY_THRESHOLD])]
  obtain ⟨ds, hperm, hsort, hout⟩ := h
  rw [hfil] at hperm
  rw [hout, hperm.eq_nil]
  rfl

/-- Witness for C5: the amended theorem evaluated on the zero vector
[0, 0] and a one-row catalog. -/
theorem C5_witness : ([] : List (Food × ℚ)) = [] := by
  apply C5_thm [0, 0] (by norm_num)
    [mkFood 1 "A".data (some [1, 0])]
  refine ⟨[], ?_, List.Pairwise.nil, rfl⟩
  have hfil : filteredRows [mkFood 1 "A".data (some [1, 0])]
      (cosine_distance [0, 0]) (1 - SIMILARITY_THRESHOLD) = [] := by
    rw [filteredRows]
    norm_num [List.filterMap_cons, cosine_distance, dotQ, mkFood,
      SIMILARITY_THRESHOLD]
  rw [hfil]

/-- C9 counterexample: with two catalog rows at exactly equal distance to
the query, the search's ORDER BY on distance alone (no secondary sort
key, `food_info.py:143-145`) admits two different result orders for the
identical catalog state and query, so identical repeated calls are not
guaranteed to return the identical candidate list. -/
theorem C9_counterexample :
    IsSearchResult
      [mkFood 1 "A".data (some [9/10, 0]), mkFood 2 "B".data (some [9/10, 0])]
      (cosine_distance [1, 0]) (1 - 7/10) 3
      [(mkFood 1 "A".data (some [9/10, 0]), 9/10),
       (mkFood 2 "B".data (some [9/10, 0]), 9/10)] ∧
    IsSearchResult
      [mkFood 1 "A".data (some [9/10, 0]), mkFood 2 "B".data (some [9/10, 0])]
      (cosine_distance [1, 0]) (1 - 7/10) 3
      [(mkFood 2 "B".data (some [9/10, 0]), 9/10),
       (mkFood 1 "A".data (some [9/10, 0]), 9/10)] ∧
    [(mkFood 1 "A".data (some [9/10, 0]), (9 : ℚ)/10),
     (mkFood 2 "B".data (some [9/10, 0]), 9/10)] ≠
      [(mkFood 2 "B".data (some [9/10, 0]), 9/10),
       (mkFood 1 "A".data (some [9/10, 0]), 9/10)] := by
  have hfil : filteredRows
      [mkFood 1 "A".data (some [9/10, 0]), mkFood 2 "B".data (some [9/10, 0])]
      (cosine_distance [1, 0]) (1 - 7/10) =
      [(mkFood 1 "A".data (some [9/10, 0]), 1/10),
       (mkFood 2 "B".data (some [9/10, 0]), 1/10)] := by
    rw [filteredRows]
    norm_num [List.filterMap_cons, cosine_distance, dotQ, mkFood]
  refine ⟨?_, ?_, ?_⟩
  · refine ⟨[(mkFood 1 "A".data (some [9/10, 0]), 1/10),
      (mkFood 2 "B".data (some [9/10, 0]), 1/10)], by rw [hfil], ?_, ?_⟩
    · refine List.Pairwise.cons ?_ (List.pairwise_singleton _ _)
      intro b hb
      rcases List.mem_singleton.mp hb with hb
      rw [hb]
    · norm_num
  · refine ⟨[(mkFood 2 "B".data (some [9/10, 0]), 1/10),
      (mkFood 1 "A".data (some [9/10, 0]), 1/10)], ?_, ?_, ?_⟩
    · rw [hfil]
      exact List.Perm.swap _ _ _
    · refine List.Pairwise.cons ?_ (List.pairwise_singleton _ _)
      intro b hb
      rcases List.mem_singleton.mp hb with hb
      rw [hb]
    · norm_num
  · intro he
    simp [mkFood] at he

/-- C9 (amended): the search result is fully determined (identical across
repeated identical calls) whenever the filtered candidates have pairwise
distinct distances; with ties the query constrains the order only up to
distance, since it has no secondary sort key. -/
theorem C9_thm (rows : List Food) (dist : Food → Option ℚ)
    (limit : ℚ) (k : ℕ)
    (hd : (filteredRows rows dist limit).Pairwise (fun a b => a.2 ≠ b.2))
    (out₁ out₂ : List (Food × ℚ))
    (h₁ : IsSearchResult rows dist limit k out₁)
    (h₂ : IsSearchResult rows dist limit k out₂) : out₁ = out₂ :=
  isSearchResult_unique rows dist limit k hd out₁ out₂ h₁ h₂

/-- Witness for C9: the amended theorem evaluated on a two-row catalog
with distinct distances 1/10 and 1/5. -/
theorem C9_witness :
    [(mkFood 1 "A".data (some [9/10, 0]), (9 : ℚ)/10),
     (mkFood 2 "B".data (some [4/5, 0]), 4/5)] =
      [(mkFood 1 "A".data (some [9/10, 0]), (9 : ℚ)/10),
       (mkFood 2 "B".data (some [4/5, 0]), 4/5)] := by
  have hfil : filteredRows
      [mkFood 1 "A".data (some [9/10, 0]), mkFood 2 "B".data (some [4/5, 0])]
      (cosine_distance [1, 0]) (1 - 7/10) =
      [(mkFood 1 "A".data (some [9/10, 0]), 1/10),
       (mkFood 2 "B".data (some [4/5, 0]), 1/5)] := by
    rw [filteredRows]
    norm_num [List.filterMap_cons, cosine_distance, dotQ, mkFood]
  have hsr : IsSearchResult
      [mkFood 1 "A".data (some [9/10, 0]), mkFood 2 "B".data (some [4/5, 0])]
      (cosine_distance [1, 0]) (1 - 7/10) 3
      [(mkFood 1 "A".data (some [9/10, 0]), 9/10),
       (mkFood 2 "B".data (some [4/5, 0]), 4/5)] := by
    refine ⟨[(mkFood 1 "A".data (some [9/10, 0]), 1/10),
      (mkFood 2 "B".data (some [4/5, 0]), 1/5)], by rw [hfil], ?_, ?_⟩
    · refine List.Pairwise.cons ?_ (List.pairwise_singleton _ _)
      intro b hb
      rcases List.mem_singleton.mp hb with hb
      rw [hb]
      norm_num
    · norm_num
  apply C9_thm
    [mkFood 1 "A".data (some [9/10, 0]), mkFood 2 "B".data (some [4/5, 0])]
    (cosine_distance [1, 0]) (1 - 7/10) 3 ?_ _ _ hsr hsr
  rw [hfil]
  refine List.Pairwise.cons ?_ (List.pairwise_singleton _ _)
  intro b hb
  rcases List.mem_singleton.mp hb with hb
  rw [hb]
  norm_num

/-- C1 counterexample: with the catalog store failing (the query raises,
modelled by `db = none`), `resolve` on a one-line menu still completes
with a normal result whose candidate list is empty — the `except` block
at `food_info.py:162-167` catches the error and returns `[]`, so nothing
propagates to the caller, contradicting the claim of a hard failure. -/
theorem C1_counterexample :
    process_ocr_text_and_get_food_details_nlp true (fun _ => some [1])
      none "돼지 김치찌개 : 8,000원".data
      [{ parsed_name := "돼지 김치찌개".data,
         price_text := some "8,000원".data, similar_foods := [] }] := by
  rw [process_ocr_text_and_get_food_details_nlp]
  have hp : parse_food_items_from_text "돼지 김치찌개 : 8,000원".data =
      [{ name := "돼지 김치찌개".data,
         price_text := some "8,000원".data }] := by decide
  rw [hp]
  exact List.Forall₂.cons ⟨rfl, rfl, rfl⟩ List.Forall₂.nil

/-- C1 (amended): a database error during the search is caught per item
inside `find_similar_food_by_meaning` and converted into an empty
candidate list; `resolve` completes normally with one result per parsed
item, all with empty candidates — it is not surfaced as a failed
operation. -/
theorem C1_thm (e : Str → Option (List ℚ)) (ocr : Str) :
    (∃ out, process_ocr_text_and_get_food_details_nlp true e none ocr out) ∧
    ∀ out, process_ocr_text_and_get_food_details_nlp true e none ocr out →
      out.length = (parse_food_items_from_text ocr).length ∧
      ∀ r ∈ out, r.similar_foods = [] := by
  constructor
  · have hex : ∀ item ∈ parse_food_items_from_text ocr, ∃ r : ResultItem,
        r.parsed_name = item.name ∧ r.price_text = item.price_text ∧
        find_similar_food_by_meaning true e none item.name TOP_K_RESULTS
          SIMILARITY_THRESHOLD r.similar_foods := by
      intro item _
      obtain ⟨sf, hsf⟩ := exists_find_similar true e none item.name
        TOP_K_RESULTS SIMILARITY_THRESHOLD
      exact ⟨⟨item.name, item.price_text, sf⟩, rfl, rfl, hsf⟩
    obtain ⟨out, h⟩ := exists_forall₂ (parse_food_items_from_text ocr) hex
    exact ⟨out, h⟩
  · intro out h
    refine ⟨h.length_eq.symm, ?_⟩
    intro r hr
    obtain ⟨item, _, _, _, h3⟩ := forall₂_exists_left h r hr
    exact find_similar_db_none true e item.name _ _ _ h3

/-- Witness for C1: the amended theorem evaluated on a one-line input. -/
theorem C1_witness :
    ([⟨"a".data, none, []⟩] : List ResultItem).length =
      (parse_food_items_from_text "a".data).length ∧
    (⟨"a".data, none, []⟩ : ResultItem).similar_foods = [] := by
  have hres : process_ocr_text_and_get_food_details_nlp true
      (fun _ => some [1]) none "a".data
      [⟨"a".data, none, []⟩] := by
    rw [process_ocr_text_and_get_food_details_nlp]
    have hp : parse_food_items_from_text "a".data =
        [{ name := "a".data, price_text := none }] := by decide
    rw [hp]
    exact List.Forall₂.cons ⟨rfl, rfl, rfl⟩ List.Forall₂.nil
  have h := (C1_thm (fun _ => some [1]) "a".data).2 _ hres
  exact ⟨h.1, h.2 _ (by simp)⟩

/-- C3 (confirmed): `resolve` always yields a result (no exception), and
every result has exactly one entry per parsed item, in parser order,
copying the item's name and price; when the embedding model is
unavailable (`model_loaded = false`) or embedding fails for an item's
name, that item's candidate list is empty. -/
theorem C3_thm (ml : Bool) (e : Str → Option (List ℚ))
    (db : Option (List Food)) (ocr : Str) :
    (∃ out, process_ocr_text_and_get_food_details_nlp ml e db ocr out) ∧
    ∀ out, process_ocr_text_and_get_food_details_nlp ml e db ocr out →
      List.Forall₂
        (fun (item : ParsedItem) (r : ResultItem) =>
          r.parsed_name = item.name ∧ r.price_text = item.price_text ∧
          ((ml = false ∨ e item.name = none) → r.similar_foods = []))
        (parse_food_items_from_text ocr) out := by
  constructor
  · have hex : ∀ item ∈ parse_food_items_from_text ocr, ∃ r : ResultItem,
        r.parsed_name = item.name ∧ r.price_text = item.price_text ∧
        find_similar_food_by_meaning ml e db item.name TOP_K_RESULTS
          SIMILARITY_THRESHOLD r.similar_foods := by
      intro item _
      obtain ⟨sf, hsf⟩ := exists_find_similar ml e db item.name
        TOP_K_RESULTS SIMILARITY_THRESHOLD
      exact ⟨⟨item.name, item.price_text, sf⟩, rfl, rfl, hsf⟩
    obtain ⟨out, h⟩ := exists_forall₂ (parse_food_items_from_text ocr) hex
    exact ⟨out, h⟩
  · intro out h
    refine List.Forall₂.imp ?_ h
    intro item r hR
    obtain ⟨h1, h2, h3⟩ := hR
    refine ⟨h1, h2, fun hc => ?_⟩
    rcases hc with hc | hc
    · rw [hc] at h3
      exact find_similar_model_false e db item.name _ _ _ h3
    · exact find_similar_embed_none ml e db item.name _ _ _ hc h3

/-- Witness for C3: the theorem evaluated with the model unavailable on a
one-line input. -/
theorem C3_witness :
    List.Forall₂
      (fun (item : ParsedItem) (r : ResultItem) =>
        r.parsed_name = item.name ∧ r.price_text = item.price_text ∧
        ((false = false ∨
          (fun _ : Str => (none : Option (List ℚ))) item.name = none) →
          r.similar_foods = []))
      (parse_food_items_from_text "a".data)
      [{ parsed_name := "a".data, price_text := none,
         similar_foods := [] }] := by
  apply (C3_thm false (fun _ => none) none "a".data).2
  rw [process_ocr_text_and_get_food_details_nlp]
  have hp : parse_food_items_from_text "a".data =
      [{ name := "a".data, price_text := none }] := by decide
  rw [hp]
  exact List.Forall₂.cons ⟨rfl, rfl, rfl⟩ List.Forall₂.nil
